import Mathlib

/-!
Shallow embedding of the `ellipxobj` Go package (EllipX/ellipxobj):
the arbitrary-precision fixed-point decimal type `Amount` (amount.go)
and the order-matching primitives (order.go, trade.go).

Conventions of the embedding:
* `big.Int` values become unbounded `Int`; Go `int` fields become `Int`.
* `big.Int.Quo` (truncated division, rounding toward zero) becomes `Int.tdiv`.
* Go `nil` pointers become `Option`; a run-time panic (nil dereference,
  `Cmp` on mismatched exponents, division by zero) becomes `none` in an
  `Option` result; `some` carries the value a non-panicking run returns.
* In-place mutation of a receiver becomes returning the new value.
-/

namespace EllipxObj

/-- `Amount` (amount.go): a fixed-point decimal, significand `value`
(a `big.Int`) together with exponent `exp`, representing `value / 10^exp`. -/
structure Amount where
  value : Int
  exp : Int
deriving DecidableEq, Repr

/-- `NewAmount` (amount.go): the amount with the given significand and
number of decimals. -/
def NewAmount (value : Int) (decimals : Int) : Amount :=
  ⟨value, decimals⟩

/-- `exp10` (amount.go): `10^v` as computed by `big.Int.Exp(10, v, nil)`;
Go's `Exp` yields 1 for a negative exponent. -/
def exp10 (v : Int) : Int :=
  if v < 0 then 1 else 10 ^ v.toNat

/-- `big.Int.Sign`: -1, 0 or 1 according to the sign of the integer. -/
def intSign (x : Int) : Int :=
  if x < 0 then -1 else if x = 0 then 0 else 1

/-- `big.Int.Cmp`: three-way comparison returning -1, 0 or +1. -/
def intCmp (x y : Int) : Int :=
  if x < y then -1 else if x = y then 0 else 1

namespace Amount

/-- `Amount.Dup` (amount.go): an independent copy; in the value model the
copy is the value itself. -/
def Dup (a : Amount) : Amount := a

/-- `Amount.IsZero` (amount.go): `value.BitLen() == 0`, i.e. the
significand is zero. -/
def IsZero (a : Amount) : Bool := a.value = 0

/-- `Amount.Sign` (amount.go): sign of the significand (a non-nil
`value` is assumed, as everywhere an `Amount` has been constructed). -/
def Sign (a : Amount) : Int := intSign a.value

/-- `Amount.SetExp` (amount.go): rescale in place to exponent `e`.
Increasing the exponent multiplies the significand by `10^(e-exp)`;
decreasing it adds half of `10^(exp-e)` (negated for a negative
significand) and divides by `10^(exp-e)` with `big.Int.Quo`
(truncation toward zero). -/
def SetExp (a : Amount) (e : Int) : Amount :=
  if a.exp = e then a
  else if e > a.exp then
    ⟨a.value * exp10 (e - a.exp), e⟩
  else
    let sub := a.exp - e
    let e10 := exp10 sub
    let e10half₀ := Int.tdiv e10 2
    let e10half := if a.Sign < 0 then e10half₀ * (-1) else e10half₀
    ⟨Int.tdiv (a.value + e10half) e10, e⟩

/-- `Amount.String` (amount.go): render the significand in base 10
(`big.Int.Text(10)`, i.e. decimal with a leading `-` when negative) and
insert the decimal point `exp` digits from the right, left-padding with
zeros when the text is shorter than the exponent. -/
def String (a : Amount) : String :=
  let s := toString a.value
  if a.exp = 0 then s
  else if (s.length : Int) > a.exp then
    let p := ((s.length : Int) - a.exp).toNat
    s.take p ++ "." ++ s.drop p
  else if (s.length : Int) < a.exp then
    let p := (a.exp - (s.length : Int)).toNat
    "0." ++ ⟨List.replicate p '0'⟩ ++ s
  else
    "0." ++ s

/-- `Amount.Cmp` (amount.go): compares the significands of two amounts;
panics (`none`) when the exponents differ. -/
def Cmp (a b : Amount) : Option Int :=
  if a.exp = b.exp then some (intCmp a.value b.value) else none

/-- `Amount.Mul` (amount.go): receiver `a` is set to `x*y` — significands
multiply, exponents add, then the product is rescaled back to the
receiver's exponent. -/
def Mul (a x y : Amount) : Amount :=
  SetExp ⟨x.value * y.value, x.exp + y.exp⟩ a.exp

/-- `Amount.Div` (amount.go): receiver `a` is set to `x/y` — a copy of `x`
is rescaled to exponent `y.exp + a.exp` and its significand divided by
`y`'s with `big.Int.Quo`. `big.Int.Quo` panics on a zero divisor
(`none`). -/
def Div (a x y : Amount) : Option Amount :=
  if y.value = 0 then none
  else
    let x' := (Dup x).SetExp (y.exp + a.exp)
    some ⟨Int.tdiv x'.value y.value, a.exp⟩

/-- `Amount.Sub` (amount.go): receiver `a` is set to `x-y`; operands whose
exponent differs from the receiver's are rescaled on copies first. -/
def Sub (a x y : Amount) : Amount :=
  let x' := if x.exp ≠ a.exp then (Dup x).SetExp a.exp else x
  let y' := if y.exp ≠ a.exp then (Dup y).SetExp a.exp else y
  ⟨x'.value - y'.value, a.exp⟩

/-- `Amount.Add` (amount.go): receiver `a` is set to `x+y`; operands whose
exponent differs from the receiver's are rescaled on copies first. -/
def Add (a x y : Amount) : Amount :=
  let x' := if x.exp ≠ a.exp then (Dup x).SetExp a.exp else x
  let y' := if y.exp ≠ a.exp then (Dup y).SetExp a.exp else y
  ⟨x'.value + y'.value, a.exp⟩

end Amount

/-- `OrderType` (orderflags source): an integer enum; `TypeInvalid = -1`,
`TypeBid = 1`, `TypeAsk = 2`. -/
abbrev OrderType := Int

def TypeInvalid : OrderType := -1

def TypeBid : OrderType := 1

def TypeAsk : OrderType := 2

/-- `Order` (order.go), restricted to the fields the matching primitives
read: direction, base-asset quantity, limit price and quote-asset spend
limit. The `*Amount` pointers become `Option Amount` (`none` = Go `nil`). -/
structure Order where
  type : OrderType
  amount : Option Amount
  price : Option Amount
  spendLimit : Option Amount
deriving DecidableEq, Repr

/-- `Trade` (trade.go), restricted to the fields matching and deduction
read: the taker's order type, the traded amount (always constructed
non-nil by `Matches`) and the execution price (`b.Price`, possibly nil). -/
structure Trade where
  type : OrderType
  amount : Amount
  price : Option Amount
deriving DecidableEq, Repr

/-- `Trade.Spent` (trade.go): `NewAmount(0, t.Price.exp).Mul(t.Amount,
t.Price)` — the quote amount spent; panics (`none`) when `t.Price` is nil. -/
def Trade.Spent (t : Trade) : Option Amount :=
  match t.price with
  | none => none
  | some p => some ((NewAmount 0 p.exp).Mul t.amount p)

namespace Order

/-- First half of `Order.TradeAmount` (order.go): order `a`'s own maximum
tradable quantity — `a.Amount`, or `a.SpendLimit / b.Price` computed at
`b.Amount`'s exponent when `a.Amount` is nil, and the more restrictive of
the two when both are set. `none` models the Go panics (nil `b.Amount`,
nil `a.SpendLimit`/`b.Price` where read, zero `b.Price`, `Cmp` on
mismatched exponents). -/
def tradeAmountRaw (a b : Order) : Option Amount :=
  match a.amount with
  | none =>
    match b.amount, a.spendLimit, b.price with
    | some ba, some sl, some bp => Amount.Div (NewAmount 0 ba.exp) sl bp
    | _, _, _ => none
  | some amt0 =>
    match a.spendLimit with
    | none => some amt0
    | some sl =>
      match b.amount, b.price with
      | some ba, some bp =>
        match Amount.Div (NewAmount 0 ba.exp) sl bp with
        | none => none
        | some amt2 =>
          match amt0.Cmp amt2 with
          | none => none
          | some c => some (if c > 0 then amt2 else amt0)
      | _, _ => none

/-- `Order.TradeAmount` (order.go): `a`'s own maximum tradable quantity
(`tradeAmountRaw`, the first half of the Go body), then clamped to the
resting order's remaining `b.Amount` (the final `amt.Cmp(b.Amount) > 0`
check of the Go body). -/
def TradeAmount (a b : Order) : Option Amount :=
  match a.tradeAmountRaw b with
  | none => none
  | some amt =>
    match b.amount with
    | none => none
    | some ba =>
      match amt.Cmp ba with
      | none => none
      | some c => some (if c > 0 then ba else amt)

/-- Shared tail of both branches of `Matches` (order.go, duplicated
there per branch): compute the tradable amount, reject zero, build the
trade carrying the incoming order's type `ty`, a copy (`Dup`) of the
amount, and the resting order's price `b.Price`. -/
def matchesEnd (a b : Order) (ty : OrderType) : Option (Option Trade) :=
  match a.TradeAmount b with
  | none => none
  | some amt =>
    if amt.IsZero then some none
    else some (some ⟨ty, amt.Dup, b.price⟩)

/-- `Order.Matches` (order.go): whether order `a` matches resting order
`b`. Result `some none` is Go's `nil` (no match), `some (some t)` a
trade, `none` a panic propagated from `Cmp`/`TradeAmount`. -/
def Matches (a b : Order) : Option (Option Trade) :=
  if a.type = TypeBid then
    if b.type ≠ TypeAsk then some none
    else
      match a.price with
      | some ap =>
        match b.price with
        | none => none
        | some bp =>
          match ap.Cmp bp with
          | none => none
          | some c => if c < 0 then some none else matchesEnd a b TypeBid
      | none => matchesEnd a b TypeBid
  else if a.type = TypeAsk then
    if b.type ≠ TypeBid then some none
    else
      match a.price with
      | some ap =>
        match b.price with
        | none => none
        | some bp =>
          match ap.Cmp bp with
          | none => none
          | some c => if c > 0 then some none else matchesEnd a b TypeAsk
      | none => matchesEnd a b TypeAsk
  else some none

/-- `Order.Deduct` (order.go): subtract the trade's amount from
`o.Amount` and the trade's spent value from `o.SpendLimit` (each when
present), clamping a negative spend limit to zero; returns the updated
order and the fully-consumed flag. -/
def Deduct (o : Order) (t : Trade) : Option (Order × Bool) :=
  let r1 :=
    match o.amount with
    | some amt =>
        let amt' := amt.Sub amt t.amount
        (({o with amount := some amt'} : Order), amt'.IsZero)
    | none => (o, false)
  match r1.1.spendLimit with
  | none => some r1
  | some sl =>
    match t.Spent with
    | none => none
    | some sp =>
      let sl' := sl.Sub sl sp
      if sl'.Sign < 0 then
        some ({r1.1 with spendLimit := some (NewAmount 0 sl'.exp)}, true)
      else
        some ({r1.1 with spendLimit := some sl'}, r1.2)

end Order

/-! Binary serialization (amount.go `Bytes`/`UnmarshalBinary`), together
with the Go standard library helpers they call:
`encoding/binary.AppendVarint` / `binary.Varint` (zigzag + base-128
little-endian varint) and `big.Int.Bytes` / `big.Int.SetBytes`
(big-endian magnitude). Bytes are modelled as `Nat` values below 256.
The encoders use structural recursion on a fuel argument equal to the
encoded number so that they evaluate in the kernel; the Go 10-byte
varint overflow cap is not modelled (it is unreachable for any exponent
a Go `int` can hold). -/

/-- `binary.AppendUvarint`: base-128 little-endian encoding, low groups
first, high bit set on every byte but the last. Structural on `fuel`. -/
def uvarintEncAux : Nat → Nat → List Nat
  | 0, x => [x]
  | fuel + 1, x =>
    if x < 128 then [x] else (x % 128 + 128) :: uvarintEncAux fuel (x / 128)

/-- `binary.AppendUvarint` with adequate fuel. -/
def uvarintEnc (x : Nat) : List Nat := uvarintEncAux x x

/-- `binary.Uvarint`: decode a base-128 varint, returning the value and
the number of bytes consumed; `none` when the buffer ends inside the
varint (Go's `n = 0` failure). -/
def uvarintDec : List Nat → Option (Nat × Nat)
  | [] => none
  | b :: rest =>
    if b < 128 then some (b, 1)
    else
      match uvarintDec rest with
      | none => none
      | some (v, n) => some (b % 128 + 128 * v, n + 1)

/-- The zigzag step of `binary.AppendVarint`: `ux = uint64(x) << 1`,
complemented for negative `x`, i.e. `2x` for `x ≥ 0` and `-2x - 1`
for `x < 0`. -/
def zigzag (x : Int) : Nat :=
  if x < 0 then (-(2 * x) - 1).toNat else (2 * x).toNat

/-- The zigzag step of `binary.Varint`: halve, complementing when the
low bit is set. -/
def zigzagInv (u : Nat) : Int :=
  if u % 2 = 0 then (u / 2 : Nat) else -((u / 2 : Nat) : Int) - 1

/-- `binary.AppendVarint`: zigzag then unsigned varint. -/
def varintEnc (x : Int) : List Nat := uvarintEnc (zigzag x)

/-- `binary.Varint`: unsigned varint then inverse zigzag. -/
def varintDec (l : List Nat) : Option (Int × Nat) :=
  match uvarintDec l with
  | none => none
  | some (u, n) => some (zigzagInv u, n)

/-- `big.Int.Bytes`: big-endian bytes of the magnitude, empty for zero.
Structural on `fuel`. -/
def natToBEAux : Nat → Nat → List Nat
  | 0, _ => []
  | fuel + 1, x =>
    if x = 0 then [] else natToBEAux fuel (x / 256) ++ [x % 256]

/-- `big.Int.Bytes` with adequate fuel. -/
def natToBE (x : Nat) : List Nat := natToBEAux x x

/-- `big.Int.SetBytes`: interpret a buffer as a big-endian unsigned
integer. -/
def beToNat (l : List Nat) : Nat := l.foldl (fun acc b => acc * 256 + b) 0

/-- `Amount.Bytes` (amount.go): version byte `0x00`, then the exponent
as a signed varint, then the significand's big-endian magnitude
(`big.Int.Bytes`, which drops the sign). -/
def Amount.Bytes (a : Amount) : List Nat :=
  0 :: (varintEnc a.exp ++ natToBE a.value.natAbs)

/-- `Amount.UnmarshalBinary` (amount.go): reject buffers shorter than 2
bytes, a nonzero version byte, or a malformed varint; otherwise read the
exponent and take the remaining bytes as the unsigned significand. -/
def Amount.UnmarshalBinary (data : List Nat) : Option Amount :=
  if data.length < 2 then none
  else
    match data with
    | [] => none
    | v :: rest =>
      if v ≠ 0 then none
      else
        match varintDec rest with
        | none => none
        | some (e, n) => some ⟨(beToNat (rest.drop n) : Nat), e⟩

end EllipxObj

namespace EllipxObj

-- Sanity examples mirroring amount_test.go
example : (NewAmount 42000 3).String = "42.000" := by decide
example : (NewAmount 42000 10).String = "0.0000042000" := by decide
example : ((NewAmount 0 5).Mul (NewAmount 42000 3) (NewAmount 500000 5)).String = "210.00000" := by decide
example : ((NewAmount 0 10).Div (NewAmount 42000 3) (NewAmount 500000 5)).map Amount.String = some "8.4000000000" := by decide

/-! Helper lemmas about the embedding, shared by the claim theorems. -/

theorem Amount.sign_lt_zero_iff (a : Amount) : a.Sign < 0 ↔ a.value < 0 := by
  simp only [Amount.Sign, intSign]
  split
  · simp [*]
  · split <;> simp_all

theorem Amount.setExp_self (a : Amount) (e : Int) (h : a.exp = e) :
    a.SetExp e = a := by
  simp [Amount.SetExp, h]

theorem exp10_of_nonneg (v : Int) (h : 0 ≤ v) : exp10 v = 10 ^ v.toNat := by
  simp [exp10, not_lt.mpr h]

theorem Amount.setExp_up (a : Amount) (e : Int) (h : a.exp < e) :
    a.SetExp e = ⟨a.value * 10 ^ (e - a.exp).toNat, e⟩ := by
  simp only [Amount.SetExp]
  rw [if_neg (show ¬ a.exp = e by omega), if_pos (show e > a.exp from h),
    exp10_of_nonneg _ (by omega)]

theorem Amount.setExp_down (a : Amount) (e : Int) (h : e < a.exp) :
    a.SetExp e =
      ⟨Int.tdiv
        (a.value +
          if a.value < 0 then -(Int.tdiv (10 ^ (a.exp - e).toNat) 2)
          else Int.tdiv (10 ^ (a.exp - e).toNat) 2)
        (10 ^ (a.exp - e).toNat), e⟩ := by
  simp only [Amount.SetExp]
  rw [if_neg (show ¬ a.exp = e by omega), if_neg (show ¬ e > a.exp by omega),
    exp10_of_nonneg _ (by omega)]
  by_cases hv : a.value < 0
  · rw [if_pos ((Amount.sign_lt_zero_iff a).mpr hv), if_pos hv]
    simp [mul_neg_one]
  · rw [if_neg (fun hc => hv ((Amount.sign_lt_zero_iff a).mp hc)), if_neg hv]

/-- Round-half-away-from-zero then truncate by an even divisor undoes an
exact upscale: `tdiv (v*D ± D/2) D = v` for even `D ≥ 2`. -/
theorem tdiv_half_roundtrip (v D : Int) (hD2 : 2 ≤ D) (heven : 2 ∣ D) :
    Int.tdiv (v * D + (if v * D < 0 then -(Int.tdiv D 2) else Int.tdiv D 2)) D = v := by
  have h0 : (0 : Int) ≤ D := by omega
  have htd : Int.tdiv D 2 = D / 2 := Int.tdiv_eq_ediv h0 (by norm_num)
  have h2 : 2 * (D / 2) = D := Int.mul_ediv_cancel' heven
  have hDne : D ≠ 0 := by omega
  by_cases hv : v < 0
  · have hvD : v * D < 0 := mul_neg_of_neg_of_pos hv (by omega)
    rw [if_pos hvD, htd]
    have hrw : v * D + -(D / 2) = -((-v) * D + D / 2) := by ring
    rw [hrw, Int.neg_tdiv]
    have hnn : 0 ≤ (-v) * D + D / 2 := by
      have : 0 ≤ (-v) * D := mul_nonneg (by omega) h0
      omega
    rw [Int.tdiv_eq_ediv hnn h0, add_comm, Int.add_mul_ediv_right _ _ hDne,
      Int.ediv_eq_zero_of_lt (by omega) (by omega)]
    omega
  · have hvD : ¬ v * D < 0 := not_lt.mpr (mul_nonneg (by omega) h0)
    rw [if_neg hvD, htd]
    have hnn : 0 ≤ v * D + D / 2 := by
      have : 0 ≤ v * D := mul_nonneg (by omega) h0
      omega
    rw [Int.tdiv_eq_ediv hnn h0, add_comm, Int.add_mul_ediv_right _ _ hDne,
      Int.ediv_eq_zero_of_lt (by omega) (by omega)]
    omega

theorem uvarintDec_encAux (fuel : Nat) : ∀ (x : Nat), x ≤ fuel → ∀ (rest : List Nat),
    uvarintDec (uvarintEncAux fuel x ++ rest) =
      some (x, (uvarintEncAux fuel x).length) := by
  induction fuel with
  | zero =>
    intro x hx rest
    have : x = 0 := by omega
    subst this
    simp [uvarintEncAux, uvarintDec]
  | succ fuel ih =>
    intro x hx rest
    by_cases h : x < 128
    · simp [uvarintEncAux, h, uvarintDec]
    · have hdiv : x / 128 < x := Nat.div_lt_self (by omega) (by omega)
      have hfuel : x / 128 ≤ fuel := by omega
      simp only [uvarintEncAux, if_neg h, List.cons_append, uvarintDec]
      rw [if_neg (show ¬ x % 128 + 128 < 128 by omega), ih (x / 128) hfuel rest]
      simp only [List.length_cons, Option.some.injEq, Prod.mk.injEq]
      constructor
      · rw [Nat.add_mod_right, Nat.mod_mod_of_dvd x (dvd_refl 128)]
        exact Nat.mod_add_div x 128
      · trivial

theorem uvarintDec_enc (x : Nat) (rest : List Nat) :
    uvarintDec (uvarintEnc x ++ rest) = some (x, (uvarintEnc x).length) :=
  uvarintDec_encAux x x (le_refl x) rest

theorem zigzagInv_zigzag (x : Int) : zigzagInv (zigzag x) = x := by
  simp only [zigzag, zigzagInv]
  by_cases h : x < 0
  · rw [if_pos h]
    rw [if_neg (by omega)]
    omega
  · rw [if_neg h]
    rw [if_pos (by omega)]
    omega

theorem varintDec_enc (x : Int) (rest : List Nat) :
    varintDec (varintEnc x ++ rest) = some (x, (varintEnc x).length) := by
  simp [varintDec, varintEnc, uvarintDec_enc, zigzagInv_zigzag]

theorem beToNat_append_single (l : List Nat) (b : Nat) :
    beToNat (l ++ [b]) = beToNat l * 256 + b := by
  simp [beToNat, List.foldl_append]

theorem beToNat_natToBEAux (fuel : Nat) : ∀ (x : Nat), x ≤ fuel →
    beToNat (natToBEAux fuel x) = x := by
  induction fuel with
  | zero =>
    intro x hx
    have : x = 0 := by omega
    subst this
    simp [natToBEAux, beToNat]
  | succ fuel ih =>
    intro x hx
    by_cases h : x = 0
    · simp [natToBEAux, h, beToNat]
    · have hdiv : x / 256 < x := Nat.div_lt_self (by omega) (by omega)
      simp only [natToBEAux, if_neg h]
      rw [beToNat_append_single, ih (x / 256) (by omega)]
      omega

theorem beToNat_natToBE (x : Nat) : beToNat (natToBE x) = x :=
  beToNat_natToBEAux x x (le_refl x)

theorem uvarintEnc_length_pos (x : Nat) : 1 ≤ (uvarintEnc x).length := by
  unfold uvarintEnc
  cases hx : x with
  | zero => simp [uvarintEncAux]
  | succ n =>
    simp only [uvarintEncAux]
    split <;> simp

theorem intCmp_lt_zero_iff (x y : Int) : intCmp x y < 0 ↔ x < y := by
  unfold intCmp
  split
  · omega
  · split <;> omega

theorem typeAsk_ne_typeBid : ¬ (TypeAsk = TypeBid) := by decide

/-! The claim theorems. -/

/-- C7: `Amount.Cmp` panics (modelled as `none`) exactly when the two
exponents differ; with equal exponents it returns the three-way integer
comparison of the significands. (The embedding is pure, so `Cmp` cannot
modify its arguments: the Go code only reads both amounts.) -/
theorem c7_cmp_panics_iff_exponents_differ (a b : Amount) :
    (a.Cmp b = none ↔ a.exp ≠ b.exp) ∧
    (a.exp = b.exp → a.Cmp b = some (intCmp a.value b.value)) := by
  constructor
  · simp only [Amount.Cmp]
    split <;> simp_all
  · intro h
    simp [Amount.Cmp, h]

/-- C7 witness: two amounts of equal exponent compare through the
significands. -/
theorem c7_cmp_witness :
    (Amount.mk 5 3).exp = (Amount.mk 7 3).exp ∧
    (Amount.mk 5 3).Cmp ⟨7, 3⟩ = some (intCmp 5 7) :=
  ⟨rfl, (c7_cmp_panics_iff_exponents_differ ⟨5, 3⟩ ⟨7, 3⟩).2 rfl⟩

/-- C3: `SetExp` to a larger exponent multiplies the significand by
`10^(e-exp)` exactly; to a smaller exponent it adds half the divisor
(negated when the significand is negative) and then truncates the
integer division (round half away from zero); concretely value=123456
exp=3 rescaled to exp=5 renders "123.45600" and then to exp=2
renders "123.46". -/
theorem c3_setexp_rescaling (a : Amount) (e : Int) :
    (a.exp < e → a.SetExp e = ⟨a.value * 10 ^ (e - a.exp).toNat, e⟩) ∧
    (e < a.exp → a.SetExp e =
      ⟨Int.tdiv
        (a.value +
          if a.value < 0 then -(Int.tdiv (10 ^ (a.exp - e).toNat) 2)
          else Int.tdiv (10 ^ (a.exp - e).toNat) 2)
        (10 ^ (a.exp - e).toNat), e⟩) ∧
    ((Amount.mk 123456 3).SetExp 5).String = "123.45600" ∧
    (((Amount.mk 123456 3).SetExp 5).SetExp 2).String = "123.46" :=
  ⟨fun h => Amount.setExp_up a e h, fun h => Amount.setExp_down a e h,
    by decide, by decide⟩

/-- C3 witness: the downscale branch applied at value=12345600, exp=5,
target exp=2. -/
theorem c3_setexp_witness :
    (2 : Int) < (Amount.mk 12345600 5).exp ∧
    (Amount.mk 12345600 5).SetExp 2 =
      ⟨Int.tdiv
        ((Amount.mk 12345600 5).value +
          if (Amount.mk 12345600 5).value < 0 then
            -(Int.tdiv (10 ^ ((Amount.mk 12345600 5).exp - 2).toNat) 2)
          else Int.tdiv (10 ^ ((Amount.mk 12345600 5).exp - 2).toNat) 2)
        (10 ^ ((Amount.mk 12345600 5).exp - 2).toNat), 2⟩ :=
  ⟨by decide, (c3_setexp_rescaling ⟨12345600, 5⟩ 2).2.1 (by decide)⟩

/-- C4: `Div` rescales a copy of `x` to exponent `y.exp + a.exp` (the
original `x` is untouched: the Go code rescales `x.Dup()`, and the
embedding is pure) and truncates the integer quotient toward zero,
keeping the receiver's exponent, so the result carries exactly `a.exp`
fractional digits; concretely 42.000 / 5.00000 at receiver exponent 10
is "8.4000000000", and 42.000 * 5.00000 rescaled to exp 5 is
"210.00000". -/
theorem c4_div_truncating :
    (∀ a x y : Amount, y.value ≠ 0 →
      a.Div x y =
        some ⟨Int.tdiv ((Amount.Dup x).SetExp (y.exp + a.exp)).value y.value, a.exp⟩) ∧
    ((NewAmount 0 10).Div (NewAmount 42000 3) (NewAmount 500000 5)).map Amount.String
      = some "8.4000000000" ∧
    ((NewAmount 0 5).Mul (NewAmount 42000 3) (NewAmount 500000 5)).String
      = "210.00000" := by
  refine ⟨?_, by decide, by decide⟩
  intro a x y hy
  simp [Amount.Div, hy]

/-- C4 witness: the division equation at the test vector's operands. -/
theorem c4_div_witness :
    (NewAmount 500000 5).value ≠ 0 ∧
    (NewAmount 0 10).Div (NewAmount 42000 3) (NewAmount 500000 5) =
      some ⟨Int.tdiv
        ((Amount.Dup (NewAmount 42000 3)).SetExp
          ((NewAmount 500000 5).exp + (NewAmount 0 10).exp)).value
        (NewAmount 500000 5).value, (NewAmount 0 10).exp⟩ :=
  ⟨by decide, c4_div_truncating.1 (NewAmount 0 10) (NewAmount 42000 3)
    (NewAmount 500000 5) (by decide)⟩

/-- C8: upscaling an amount from `e1` to `e2 ≥ e1` and downscaling back
to `e1` restores the significand exactly (the upscale is lossless and
the round-half-away-from-zero downscale of an exact multiple recovers
it). -/
theorem c8_setexp_roundtrip (v e1 e2 : Int) (_h0 : 0 ≤ e1) (h12 : e1 ≤ e2) :
    ((Amount.mk v e1).SetExp e2).SetExp e1 = Amount.mk v e1 := by
  by_cases heq : e1 = e2
  · subst heq
    rw [Amount.setExp_self _ _ rfl, Amount.setExp_self _ _ rfl]
  · have h12' : e1 < e2 := by omega
    rw [Amount.setExp_up _ _ (show (Amount.mk v e1).exp < e2 from h12')]
    rw [Amount.setExp_down _ _
      (show e1 < (Amount.mk (v * 10 ^ (e2 - e1).toNat) e2).exp from h12')]
    have hd : 1 ≤ (e2 - e1).toNat := by omega
    have hD2 : (2 : Int) ≤ 10 ^ (e2 - e1).toNat :=
      le_trans (by norm_num) (pow_le_pow_right₀ (by norm_num) hd)
    have heven : (2 : Int) ∣ 10 ^ (e2 - e1).toNat :=
      dvd_pow (by norm_num) (by omega)
    simp only [Amount.mk.injEq]
    exact ⟨tdiv_half_roundtrip v _ hD2 heven, trivial⟩

/-- C8 witness: value -5 at exp 2, up to exp 4 and back. -/
theorem c8_setexp_roundtrip_witness :
    (0 : Int) ≤ 2 ∧ (2 : Int) ≤ 4 ∧
    ((Amount.mk (-5) 2).SetExp 4).SetExp 2 = Amount.mk (-5) 2 :=
  ⟨by decide, by decide, c8_setexp_roundtrip (-5) 2 4 (by decide) (by decide)⟩

/-- C10: for a negative significand whose signed decimal text is no
longer than the (positive) exponent, `String` renders the minus sign to
the right of the decimal point: "0.-5" for value -5, exp 2, and
"0.0-5" for value -5, exp 3 (the padded branches prepend "0." and
zeros to the signed text instead of splitting off the sign). -/
theorem c10_string_places_minus_after_point :
    (NewAmount (-5) 2).String = "0.-5" ∧
    (NewAmount (-5) 3).String = "0.0-5" ∧
    ∀ a : Amount, 0 < a.exp → a.value < 0 →
      (((toString a.value).length : Int) = a.exp →
        a.String = "0." ++ toString a.value) ∧
      (((toString a.value).length : Int) < a.exp →
        a.String = "0." ++
          ⟨List.replicate (a.exp - (toString a.value).length).toNat '0'⟩ ++
          toString a.value) := by
  refine ⟨by decide, by decide, ?_⟩
  intro a hexp hneg
  constructor
  · intro hlen
    simp only [Amount.String]
    rw [if_neg (by omega), if_neg (by omega), if_neg (by omega)]
  · intro hlen
    simp only [Amount.String]
    rw [if_neg (by omega), if_neg (by omega), if_pos hlen]

/-- C10 witness: value -5 at exponent 3 goes through the padded branch. -/
theorem c10_string_witness :
    (0 : Int) < (Amount.mk (-5) 3).exp ∧ (Amount.mk (-5) 3).value < 0 ∧
    (Amount.mk (-5) 3).String = "0." ++
      ⟨List.replicate
        ((Amount.mk (-5) 3).exp - (toString (Amount.mk (-5) 3).value).length).toNat
        '0'⟩ ++
      toString (Amount.mk (-5) 3).value :=
  ⟨by decide, by decide,
    ((c10_string_places_minus_after_point.2.2 ⟨-5, 3⟩ (by decide) (by decide)).2
      (by decide))⟩

/-- C2 (code-bug evidence): `Deduct` flags fully-consumed when `Amount`
lands exactly on zero, and clamps a `SpendLimit` driven negative to
exactly zero flagging consumed — but a spend-limit-only order whose
`SpendLimit` lands on exactly zero after subtraction is left
*unflagged* (`Sign() < 0` is the only spend-limit trigger), contrary to
the claim and to the function's own doc comment ("Returns true if the
order is fully consumed (either Amount or SpendLimit reduced to
zero)"). The trade spends 1.00 against each order. -/
theorem c2_deduct_exact_zero_spendlimit_not_flagged :
    Order.Deduct ⟨TypeBid, some ⟨100, 2⟩, none, none⟩ ⟨TypeBid, ⟨100, 2⟩, some ⟨100, 2⟩⟩
      = some (⟨TypeBid, some ⟨0, 2⟩, none, none⟩, true) ∧
    Order.Deduct ⟨TypeBid, none, none, some ⟨99, 2⟩⟩ ⟨TypeBid, ⟨100, 2⟩, some ⟨100, 2⟩⟩
      = some (⟨TypeBid, none, none, some ⟨0, 2⟩⟩, true) ∧
    Order.Deduct ⟨TypeBid, none, none, some ⟨100, 2⟩⟩ ⟨TypeBid, ⟨100, 2⟩, some ⟨100, 2⟩⟩
      = some (⟨TypeBid, none, none, some ⟨0, 2⟩⟩, false) :=
  ⟨by decide, by decide, by decide⟩

/-- C5: `TradeAmount` never exceeds the resting order's remaining
`b.Amount`: any successful result has `b.Amount`'s exponent and a
significand at most `b.Amount`'s, and whenever `a`'s own maximum
tradable quantity (the un-clamped first half of the computation)
exceeds `b.Amount`, exactly `b.Amount` is returned. -/
theorem c5_tradeamount_clamped (a b : Order) (ba amt : Amount)
    (hba : b.amount = some ba) (h : a.TradeAmount b = some amt) :
    (amt.exp = ba.exp ∧ amt.value ≤ ba.value) ∧
    (∀ amt1, a.tradeAmountRaw b = some amt1 → ba.value < amt1.value → amt = ba) := by
  unfold Order.TradeAmount at h
  cases hraw : a.tradeAmountRaw b with
  | none => simp [hraw] at h
  | some amt1 =>
    simp only [hraw, hba] at h
    cases hc : amt1.Cmp ba with
    | none => simp [hc] at h
    | some c =>
      simp only [hc, Option.some.injEq] at h
      rw [Amount.Cmp] at hc
      by_cases hexp : amt1.exp = ba.exp
      · rw [if_pos hexp] at hc
        injection hc with hc
        subst hc
        by_cases hgt : intCmp amt1.value ba.value > 0
        · rw [if_pos hgt] at h
          subst h
          exact ⟨⟨rfl, le_refl _⟩, fun _ _ _ => rfl⟩
        · rw [if_neg hgt] at h
          subst h
          have hle : amt1.value ≤ ba.value := by
            simp only [intCmp] at hgt
            split at hgt <;> [omega; (split at hgt <;> omega)]
          refine ⟨⟨hexp, hle⟩, ?_⟩
          intro amt1' hraw' hlt
          have heq1 : amt1 = amt1' := by injection hraw'
          subst heq1
          exact absurd hlt (not_lt.mpr hle)
      · rw [if_neg hexp] at hc
        cases hc

/-- C5 witness: a bid for 3.00000000 against a resting ask of
2.00000000 trades exactly the resting 2.00000000. -/
theorem c5_tradeamount_witness :
    ((Amount.mk 200000000 8).exp = (Amount.mk 200000000 8).exp ∧
      (Amount.mk 200000000 8).value ≤ (Amount.mk 200000000 8).value) ∧
    (∀ amt1,
      Order.tradeAmountRaw ⟨TypeBid, some ⟨300000000, 8⟩, none, none⟩
          ⟨TypeAsk, some ⟨200000000, 8⟩, some ⟨400000, 5⟩, none⟩ = some amt1 →
      (Amount.mk 200000000 8).value < amt1.value →
      Amount.mk 200000000 8 = Amount.mk 200000000 8) :=
  c5_tradeamount_clamped ⟨TypeBid, some ⟨300000000, 8⟩, none, none⟩
    ⟨TypeAsk, some ⟨200000000, 8⟩, some ⟨400000, 5⟩, none⟩
    ⟨200000000, 8⟩ ⟨200000000, 8⟩ rfl (by decide)

/-- C1: for an incoming bid `a` against a resting order `b` with price
`bp` (price exponents compatible, tradable amount computing to `amt`):
no match when `b` is not an ask; no match when `a` is priced strictly
below `bp`; otherwise (including the market-bid case `a.Price = nil`,
where the price check is skipped) no match exactly when the tradable
amount is zero, and otherwise a trade typed bid at the resting price
`bp` carrying the tradable amount (the Go code stores `amt.Dup()`, an
independent copy — in this value model the copy equals `amt`). -/
theorem c1_matches_bid (a b : Order) (bp amt : Amount)
    (ha : a.type = TypeBid)
    (hbp : b.price = some bp)
    (hexp : ∀ ap, a.price = some ap → ap.exp = bp.exp)
    (hta : a.TradeAmount b = some amt) :
    (b.type ≠ TypeAsk → a.Matches b = some none) ∧
    (∀ ap, a.price = some ap → ap.value < bp.value → a.Matches b = some none) ∧
    (b.type = TypeAsk → (∀ ap, a.price = some ap → bp.value ≤ ap.value) →
      (amt.value = 0 → a.Matches b = some none) ∧
      (amt.value ≠ 0 → a.Matches b = some (some ⟨TypeBid, amt, some bp⟩))) := by
  refine ⟨?_, ?_, ?_⟩
  · intro hb
    simp [Order.Matches, ha, hb]
  · intro ap hap hlt
    have hc : ap.Cmp bp = some (intCmp ap.value bp.value) := by
      simp [Amount.Cmp, hexp ap hap]
    have hltc : intCmp ap.value bp.value < 0 := (intCmp_lt_zero_iff _ _).mpr hlt
    by_cases hb : b.type = TypeAsk
    · simp [Order.Matches, ha, hb, hap, hbp, hc, hltc]
    · simp [Order.Matches, ha, hb]
  · intro hb hge
    have hend0 : a.Matches b = Order.matchesEnd a b TypeBid := by
      cases hap : a.price with
      | none => simp [Order.Matches, ha, hb, hap]
      | some ap =>
        have hc : ap.Cmp bp = some (intCmp ap.value bp.value) := by
          simp [Amount.Cmp, hexp ap hap]
        have hnlt : ¬ intCmp ap.value bp.value < 0 := by
          rw [intCmp_lt_zero_iff]
          have := hge ap hap
          omega
        simp [Order.Matches, ha, hb, hap, hbp, hc, hnlt]
    constructor
    · intro h0
      rw [hend0]
      simp [Order.matchesEnd, hta, Amount.IsZero, h0]
    · intro h0
      rw [hend0]
      simp [Order.matchesEnd, hta, Amount.IsZero, h0, Amount.Dup, hbp]

/-- C1 witness: a bid of 1.00000000 at 5.00000 against a resting ask of
2.00000000 at 4.00000 trades 1.00000000 at the resting price 4.00000. -/
theorem c1_matches_bid_witness :
    Order.Matches ⟨TypeBid, some ⟨100000000, 8⟩, some ⟨500000, 5⟩, none⟩
        ⟨TypeAsk, some ⟨200000000, 8⟩, some ⟨400000, 5⟩, none⟩
      = some (some ⟨TypeBid, ⟨100000000, 8⟩, some ⟨400000, 5⟩⟩) :=
  ((c1_matches_bid ⟨TypeBid, some ⟨100000000, 8⟩, some ⟨500000, 5⟩, none⟩
      ⟨TypeAsk, some ⟨200000000, 8⟩, some ⟨400000, 5⟩, none⟩
      ⟨400000, 5⟩ ⟨100000000, 8⟩ rfl rfl
      (fun ap hap => by injection hap with h; rw [← h])
      (by decide)).2.2 rfl
      (fun ap hap => by injection hap with h; rw [← h]; decide)).2 (by decide)

/-- C6 counterexample: `Matches` is not total on all order pairs with a
priced resting order — a bid whose price has exponent 1 against a
resting ask whose price has exponent 5 drives `Amount.Cmp` into its
panic, so `Matches` panics (`none`) instead of returning a trade or
nil. -/
theorem c6_matches_panic_counterexample :
    Order.Matches ⟨TypeBid, some ⟨100000000, 8⟩, some ⟨50, 1⟩, none⟩
      ⟨TypeAsk, some ⟨200000000, 8⟩, some ⟨400000, 5⟩, none⟩ = none := by decide

/-- C6 (amended): `Matches` terminates without error or panic —
returning a trade or nil as its only outcomes — provided the orders are
well-formed for comparison: the resting order carries a price with
nonzero significand and an amount, exponents agree where significands
are compared (`a.Amount` with `b.Amount`, `a.Price` with `b.Price`),
and `a` carries an amount or a spend limit. -/
theorem c6_matches_no_panic (a b : Order) (bp ba : Amount)
    (hbp : b.price = some bp) (hbpv : bp.value ≠ 0) (hba : b.amount = some ba)
    (hae : ∀ a0, a.amount = some a0 → a0.exp = ba.exp)
    (hpe : ∀ ap, a.price = some ap → ap.exp = bp.exp)
    (hsl : a.amount = none → a.spendLimit ≠ none) :
    (a.Matches b).isSome := by
  have hraw : ∃ amt1, a.tradeAmountRaw b = some amt1 ∧ amt1.exp = ba.exp := by
    cases ham : a.amount with
    | none =>
      obtain ⟨sl, hsl2⟩ := Option.ne_none_iff_exists'.mp (hsl ham)
      refine ⟨⟨Int.tdiv ((Amount.Dup sl).SetExp (bp.exp + ba.exp)).value bp.value,
        ba.exp⟩, ?_, rfl⟩
      simp [Order.tradeAmountRaw, ham, hba, hsl2, hbp, Amount.Div, hbpv, NewAmount]
    | some a0 =>
      cases hsl2 : a.spendLimit with
      | none =>
        exact ⟨a0, by simp [Order.tradeAmountRaw, ham, hsl2], hae a0 ham⟩
      | some sl =>
        have hdiv : Amount.Div (NewAmount 0 ba.exp) sl bp =
            some ⟨Int.tdiv ((Amount.Dup sl).SetExp (bp.exp + ba.exp)).value bp.value,
              ba.exp⟩ := by
          simp [Amount.Div, hbpv, NewAmount]
        have hcmp : a0.Cmp ⟨Int.tdiv ((Amount.Dup sl).SetExp (bp.exp + ba.exp)).value
            bp.value, ba.exp⟩ =
            some (intCmp a0.value (Int.tdiv ((Amount.Dup sl).SetExp
              (bp.exp + ba.exp)).value bp.value)) := by
          simp [Amount.Cmp, hae a0 ham]
        by_cases hif :
            intCmp a0.value
              (Int.tdiv ((Amount.Dup sl).SetExp (bp.exp + ba.exp)).value bp.value) > 0
        · refine ⟨⟨Int.tdiv ((Amount.Dup sl).SetExp (bp.exp + ba.exp)).value bp.value,
            ba.exp⟩, ?_, rfl⟩
          simp only [Order.tradeAmountRaw, ham, hsl2, hba, hbp, hdiv, hcmp, if_pos hif]
        · refine ⟨a0, ?_, hae a0 ham⟩
          simp only [Order.tradeAmountRaw, ham, hsl2, hba, hbp, hdiv, hcmp, if_neg hif]
  obtain ⟨amt1, h1, hexp1⟩ := hraw
  have hcmp1 : amt1.Cmp ba = some (intCmp amt1.value ba.value) := by
    simp [Amount.Cmp, hexp1]
  have hta : a.TradeAmount b
      = some (if intCmp amt1.value ba.value > 0 then ba else amt1) := by
    simp [Order.TradeAmount, h1, hba, hcmp1]
  have hend : ∀ ty, (Order.matchesEnd a b ty).isSome = true := by
    intro ty
    by_cases hz : (if intCmp amt1.value ba.value > 0 then ba else amt1).IsZero
    · simp [Order.matchesEnd, hta, hz]
    · simp [Order.matchesEnd, hta, hz]
  by_cases h1t : a.type = TypeBid
  · by_cases h2 : b.type = TypeAsk
    · cases hap : a.price with
      | none =>
        simp only [Order.Matches, if_pos h1t, h2, hap]
        simpa using hend TypeBid
      | some ap =>
        have hc : ap.Cmp bp = some (intCmp ap.value bp.value) := by
          simp [Amount.Cmp, hpe ap hap]
        by_cases hlt : intCmp ap.value bp.value < 0
        · simp [Order.Matches, h1t, h2, hap, hbp, hc, hlt]
        · simp only [Order.Matches, if_pos h1t, h2, hap, hbp, hc]
          simp [hlt]
          exact hend TypeBid
    · simp [Order.Matches, h1t, h2]
  · by_cases h1a : a.type = TypeAsk
    · by_cases h2 : b.type = TypeBid
      · cases hap : a.price with
        | none =>
          simp only [Order.Matches, if_neg h1t, if_pos h1a, h2, hap]
          simp [typeAsk_ne_typeBid]
          exact hend TypeAsk
        | some ap =>
          have hc : ap.Cmp bp = some (intCmp ap.value bp.value) := by
            simp [Amount.Cmp, hpe ap hap]
          by_cases hgt : intCmp ap.value bp.value > 0
          · simp [Order.Matches, h1t, h1a, h2, hap, hbp, hc, hgt, typeAsk_ne_typeBid]
          · simp only [Order.Matches, if_neg h1t, if_pos h1a, h2, hap, hbp, hc]
            simp [hgt, typeAsk_ne_typeBid]
            exact hend TypeAsk
      · simp [Order.Matches, h1t, h1a, h2, typeAsk_ne_typeBid]
    · simp [Order.Matches, h1t, h1a]

/-- C9: for any amount with zero-or-positive significand (any exponent,
including ones whose varint encoding spans several bytes),
`UnmarshalBinary` applied to `Bytes` succeeds and reproduces the
amount's decimal rendering exactly. -/
theorem c9_binary_roundtrip (a : Amount) (h : 0 ≤ a.value) :
    ∃ b, Amount.UnmarshalBinary a.Bytes = some b ∧ b.String = a.String := by
  refine ⟨a, ?_, rfl⟩
  have hlen1 : 1 ≤ (varintEnc a.exp).length := uvarintEnc_length_pos _
  unfold Amount.Bytes Amount.UnmarshalBinary
  rw [if_neg (by simp only [List.length_cons, List.length_append]; omega)]
  simp [varintDec_enc, List.drop_left, beToNat_natToBE, Int.natAbs_of_nonneg h]

/-- C9 witness: value 123456 at exponent 300 (a two-byte varint
exponent) round-trips. -/
theorem c9_binary_roundtrip_witness :
    (0 : Int) ≤ (Amount.mk 123456 300).value ∧
    ∃ b, Amount.UnmarshalBinary (Amount.mk 123456 300).Bytes = some b ∧
      b.String = (Amount.mk 123456 300).String :=
  ⟨by decide, c9_binary_roundtrip ⟨123456, 300⟩ (by decide)⟩

/-- C6 witness: with compatible exponents the bid/ask pair of the C1
witness matches without panic. -/
theorem c6_matches_no_panic_witness :
    (Order.Matches ⟨TypeBid, some ⟨100000000, 8⟩, some ⟨500000, 5⟩, none⟩
      ⟨TypeAsk, some ⟨200000000, 8⟩, some ⟨400000, 5⟩, none⟩).isSome :=
  c6_matches_no_panic ⟨TypeBid, some ⟨100000000, 8⟩, some ⟨500000, 5⟩, none⟩
    ⟨TypeAsk, some ⟨200000000, 8⟩, some ⟨400000, 5⟩, none⟩
    ⟨400000, 5⟩ ⟨200000000, 8⟩ rfl (by decide) rfl
    (fun a0 h => by injection h with h; rw [← h])
    (fun ap h => by injection h with h; rw [← h])
    (fun h => Option.noConfusion h)

end EllipxObj
